import Mathlib

/-!
Verification of the MRMS radar-processing pipeline core.

This file gives a shallow embedding of the repository's core components and
proves the spec's claims about them:

* Timestamp codec (`src/utils.py`): `parse_mrms_filename` / `format_timestamp`.
  The Python parser is `re.search` with the fixed-width pattern
  `MRMS_MergedReflectivityQC_\d\d\.\d\d_(\d{8})-(\d{6})\.grib2` followed by
  `datetime.strptime("%Y%m%d%H%M%S")`.  Every quantifier in that pattern has a
  fixed width, so the search is modelled as a leftmost scan trying a
  deterministic fixed-shape match at each position; `\d` is modelled as the
  ASCII digits appearing in these filenames.  `strptime` on the fixed-width
  digit groups succeeds exactly on syntactically valid Gregorian
  date-times (the `datetime` constructor rejects out-of-range fields), which is
  modelled by an explicit validity predicate.
* Dedup ledger (`src/download_tracker.py`): `DownloadTracker` with its
  bounded, newest-first eviction (`cleanup_old`), `add_timestamp`,
  `has_timestamp`.  Python's `set` of strings is a `Finset String`; Python's
  `sorted(…, reverse=True)` over code-point lexicographic string order is
  `Finset.sort (· ≥ ·)` over Lean's lexicographic `String` order.
* Composite merger (`src/rala.py` `generate_rala` together with
  `apply_quality_control` from `src/processor.py`): grids are lists of rows of
  cells, a cell being `Option ℚ` with `none` for the NaN missing sentinel
  (float NaN compares false under `<`/`>`, so QC leaves it missing, which the
  model reflects by mapping `none` to `none`).
* Cache janitor (`src/utils.py` `cleanup_old_files`): directory contents are a
  list of (mtime, name) pairs; Python's stable `sorted(key=mtime,
  reverse=True)` is a stable insertion sort by the `≥`-on-mtime relation; a
  per-file `unlink` failure predicate models individual deletion failures.
* Update scheduler (`src/scheduler.py` `update_radar_data`): the cooperative
  asyncio execution of the guarded cycle is a small-step trace model; the
  guard-and-set at the top of `update_radar_data` contains no await point, so
  it is one atomic step, and the `finally` clearing of `_is_running` ends a
  cycle whether its body returns or raises.
-/

/-! ## Timestamp codec (`src/utils.py`) -/

/-- One `\d` of the pattern: an ASCII digit character. -/
def isDigitChar (c : Char) : Bool := 48 ≤ c.toNat && c.toNat ≤ 57

/-- Numeric value of an ASCII digit character. -/
def digitVal (c : Char) : ℕ := c.toNat - 48

/-- Consume exactly `k` digit characters, returning them and the rest
(`\d{k}` of the pattern). -/
def readDigits : ℕ → List Char → Option (List Char × List Char)
  | 0, cs => some ([], cs)
  | _ + 1, [] => none
  | k + 1, c :: cs =>
    if isDigitChar c then (readDigits k cs).map (fun p => (c :: p.1, p.2))
    else none

/-- Consume an exact literal character sequence, returning the rest. -/
def readLit : List Char → List Char → Option (List Char)
  | [], cs => some cs
  | _ :: _, [] => none
  | l :: ls, c :: cs => if c = l then readLit ls cs else none

/-- Try the fixed-width MRMS pattern at the start of `cs`; on success return
the 8-digit date group and the 6-digit time group. -/
def matchMRMSAt (cs : List Char) : Option (List Char × List Char) :=
  (readLit "MRMS_MergedReflectivityQC_".data cs).bind fun cs1 =>
  (readDigits 2 cs1).bind fun p1 =>
  (readLit ['.'] p1.2).bind fun cs2 =>
  (readDigits 2 cs2).bind fun p2 =>
  (readLit ['_'] p2.2).bind fun cs3 =>
  (readDigits 8 cs3).bind fun pd =>
  (readLit ['-'] pd.2).bind fun cs4 =>
  (readDigits 6 cs4).bind fun pt =>
  (readLit ".grib2".data pt.2).map fun _ => (pd.1, pt.1)

/-- `re.search`: try the pattern at each position, leftmost first. -/
def searchMRMS : List Char → Option (List Char × List Char)
  | [] => none
  | c :: cs => (matchMRMSAt (c :: cs)).orElse fun _ => searchMRMS cs

/-- A parsed scan identifier: the fields of a Python `datetime`
(year..second resolution). -/
structure DateTime where
  year : ℕ
  month : ℕ
  day : ℕ
  hour : ℕ
  minute : ℕ
  second : ℕ
deriving DecidableEq, Repr

/-- Gregorian leap year, as Python's `calendar`/`datetime` uses. -/
def isLeapYear (y : ℕ) : Bool := (y % 4 = 0 && y % 100 ≠ 0) || y % 400 = 0

/-- Days in a month of a given year. -/
def daysInMonth (y m : ℕ) : ℕ :=
  if m = 2 then (if isLeapYear y then 29 else 28)
  else if m = 4 ∨ m = 6 ∨ m = 9 ∨ m = 11 then 30
  else 31

/-- The field ranges `datetime.strptime` accepts: exactly those for which the
`datetime` constructor does not raise (plus the in-month day check). -/
def dtValid (t : DateTime) : Bool :=
  1 ≤ t.year && t.year ≤ 9999 &&
  1 ≤ t.month && t.month ≤ 12 &&
  1 ≤ t.day && t.day ≤ daysInMonth t.year t.month &&
  t.hour ≤ 23 && t.minute ≤ 59 && t.second ≤ 59

/-- Value of a fixed-width digit group, most significant first
(what `strptime` computes for the group). -/
def digitsVal (ds : List Char) : ℕ := ds.foldl (fun a c => a * 10 + digitVal c) 0

/-- `strptime("%Y%m%d%H%M%S")` on the 8-digit date group and 6-digit time
group, validated; `none` models the caught `ValueError`. -/
def mkDateTime (ds ts : List Char) : Option DateTime :=
  let t : DateTime :=
    { year := digitsVal (ds.take 4)
      month := digitsVal ((ds.drop 4).take 2)
      day := digitsVal (ds.drop 6)
      hour := digitsVal (ts.take 2)
      minute := digitsVal ((ts.drop 2).take 2)
      second := digitsVal (ts.drop 4) }
  if dtValid t then some t else none

/-- `parse_mrms_filename` (`src/utils.py:52-77`): search for the MRMS pattern
and parse the timestamp groups, returning `none` on a failed search or on an
invalid date/time. -/
def parse_mrms_filename (s : String) : Option DateTime :=
  (searchMRMS s.data).bind fun p => mkDateTime p.1 p.2

/-- Two-digit zero-padded decimal rendering (`%m`, `%d`, `%H`, `%M`, `%S`). -/
def pad2 (n : ℕ) : List Char := [Nat.digitChar (n / 10 % 10), Nat.digitChar (n % 10)]

/-- Four-digit zero-padded decimal rendering (`%Y` as documented for
`datetime.strftime`). -/
def pad4 (n : ℕ) : List Char :=
  [Nat.digitChar (n / 1000 % 10), Nat.digitChar (n / 100 % 10),
   Nat.digitChar (n / 10 % 10), Nat.digitChar (n % 10)]

/-- `format_timestamp` (`src/utils.py:103-113`): `strftime("%Y%m%d-%H%M%S")`. -/
def format_timestamp (t : DateTime) : String :=
  ⟨pad4 t.year ++ pad2 t.month ++ pad2 t.day ++ ['-'] ++
   pad2 t.hour ++ pad2 t.minute ++ pad2 t.second⟩

/-! ### Codec lemmas -/

lemma readLit_append (lit rest : List Char) : readLit lit (lit ++ rest) = some rest := by
  induction lit with
  | nil => rfl
  | cons c cs ih => simp [readLit, ih]

lemma readDigits_append (ds rest : List Char) (h : ∀ c ∈ ds, isDigitChar c = true) :
    readDigits ds.length (ds ++ rest) = some (ds, rest) := by
  induction ds with
  | nil => rfl
  | cons c cs ih =>
    have hc : isDigitChar c = true := h c (by simp)
    have ih' := ih (fun x hx => h x (by simp [hx]))
    simp [readDigits, hc, ih']

lemma isDigitChar_digitChar {i : ℕ} (h : i < 10) : isDigitChar (Nat.digitChar i) = true := by
  interval_cases i <;> decide

lemma digitVal_digitChar {i : ℕ} (h : i < 10) : digitVal (Nat.digitChar i) = i := by
  interval_cases i <;> decide

lemma pad2_isDigit (n : ℕ) : ∀ c ∈ pad2 n, isDigitChar c = true := by
  intro c hc
  simp only [pad2, List.mem_cons, List.not_mem_nil, or_false] at hc
  rcases hc with h | h <;>
    exact h ▸ isDigitChar_digitChar (Nat.mod_lt _ (by norm_num))

lemma pad4_isDigit (n : ℕ) : ∀ c ∈ pad4 n, isDigitChar c = true := by
  intro c hc
  simp only [pad4, List.mem_cons, List.not_mem_nil, or_false] at hc
  rcases hc with h | h | h | h <;>
    exact h ▸ isDigitChar_digitChar (Nat.mod_lt _ (by norm_num))

lemma digitsVal_pad2 {n : ℕ} (h : n < 100) : digitsVal (pad2 n) = n := by
  have h1 : n / 10 % 10 < 10 := Nat.mod_lt _ (by norm_num)
  have h2 : n % 10 < 10 := Nat.mod_lt _ (by norm_num)
  simp only [digitsVal, pad2, List.foldl, digitVal_digitChar h1, digitVal_digitChar h2]
  omega

lemma digitsVal_pad4 {n : ℕ} (h : n < 10000) : digitsVal (pad4 n) = n := by
  have h1 : n / 1000 % 10 < 10 := Nat.mod_lt _ (by norm_num)
  have h2 : n / 100 % 10 < 10 := Nat.mod_lt _ (by norm_num)
  have h3 : n / 10 % 10 < 10 := Nat.mod_lt _ (by norm_num)
  have h4 : n % 10 < 10 := Nat.mod_lt _ (by norm_num)
  simp only [digitsVal, pad4, List.foldl, digitVal_digitChar h1, digitVal_digitChar h2,
    digitVal_digitChar h3, digitVal_digitChar h4]
  omega

lemma searchMRMS_of_matchAt {cs : List Char} {r : List Char × List Char}
    (h : matchMRMSAt cs = some r) : searchMRMS cs = some r := by
  cases cs with
  | nil => simp [matchMRMSAt, readLit] at h
  | cons c cs => simp [searchMRMS, h, Option.orElse]

lemma readDigits_exact (ds : List Char) {k : ℕ} {rest : List Char} (hl : ds.length = k)
    (h : ∀ c ∈ ds, isDigitChar c = true) : readDigits k (ds ++ rest) = some (ds, rest) :=
  hl ▸ readDigits_append ds rest h

lemma readLit_self (lit : List Char) : readLit lit lit = some [] := by
  simpa using readLit_append lit []

lemma digits_append {a b : List Char} (ha : ∀ c ∈ a, isDigitChar c = true)
    (hb : ∀ c ∈ b, isDigitChar c = true) : ∀ c ∈ a ++ b, isDigitChar c = true := by
  intro c hc
  rcases List.mem_append.1 hc with h | h
  · exact ha c h
  · exact hb c h

lemma format_timestamp_data (t : DateTime) : (format_timestamp t).data =
    pad4 t.year ++ pad2 t.month ++ pad2 t.day ++ ['-'] ++
      pad2 t.hour ++ pad2 t.minute ++ pad2 t.second := rfl

lemma matchMRMSAt_embedded (t : DateTime) :
    matchMRMSAt ("MRMS_MergedReflectivityQC_00.50_".data ++
        ((format_timestamp t).data ++ ".grib2".data)) =
      some (pad4 t.year ++ (pad2 t.month ++ pad2 t.day),
            pad2 t.hour ++ (pad2 t.minute ++ pad2 t.second)) := by
  obtain ⟨y, m, d, hh, mm, ss⟩ := t
  have hpre : "MRMS_MergedReflectivityQC_00.50_".data
      = "MRMS_MergedReflectivityQC_".data ++ ['0', '0', '.', '5', '0', '_'] := by decide
  have harg : "MRMS_MergedReflectivityQC_00.50_".data ++
        ((format_timestamp ⟨y, m, d, hh, mm, ss⟩).data ++ ".grib2".data)
      = "MRMS_MergedReflectivityQC_".data ++ (['0', '0'] ++ (['.'] ++ (['5', '0'] ++ (['_'] ++
          ((pad4 y ++ (pad2 m ++ pad2 d)) ++ (['-'] ++
            ((pad2 hh ++ (pad2 mm ++ pad2 ss)) ++ ".grib2".data))))))) := by
    rw [hpre, format_timestamp_data]
    simp
  rw [harg]
  have hdd : ∀ c ∈ pad4 y ++ (pad2 m ++ pad2 d), isDigitChar c = true :=
    digits_append (pad4_isDigit y) (digits_append (pad2_isDigit m) (pad2_isDigit d))
  have htd : ∀ c ∈ pad2 hh ++ (pad2 mm ++ pad2 ss), isDigitChar c = true :=
    digits_append (pad2_isDigit hh) (digits_append (pad2_isDigit mm) (pad2_isDigit ss))
  simp only [matchMRMSAt]
  rw [readLit_append]
  simp only [Option.some_bind]
  rw [readDigits_exact ['0', '0'] (show (['0', '0'] : List Char).length = 2 from rfl) (by decide)]
  simp only [Option.some_bind]
  rw [readLit_append]
  simp only [Option.some_bind]
  rw [readDigits_exact ['5', '0'] (show (['5', '0'] : List Char).length = 2 from rfl) (by decide)]
  simp only [Option.some_bind]
  rw [readLit_append]
  simp only [Option.some_bind]
  rw [readDigits_exact (pad4 y ++ (pad2 m ++ pad2 d))
    (show (pad4 y ++ (pad2 m ++ pad2 d)).length = 8 by simp [pad4, pad2]) hdd]
  simp only [Option.some_bind]
  rw [readLit_append]
  simp only [Option.some_bind]
  rw [readDigits_exact (pad2 hh ++ (pad2 mm ++ pad2 ss))
    (show (pad2 hh ++ (pad2 mm ++ pad2 ss)).length = 6 by simp [pad2]) htd]
  simp only [Option.some_bind]
  rw [readLit_self]
  rfl

lemma daysInMonth_le (y m : ℕ) : daysInMonth y m ≤ 31 := by
  unfold daysInMonth
  split_ifs <;> omega

lemma mkDateTime_format (t : DateTime) (h : dtValid t = true) :
    mkDateTime (pad4 t.year ++ (pad2 t.month ++ pad2 t.day))
      (pad2 t.hour ++ (pad2 t.minute ++ pad2 t.second)) = some t := by
  obtain ⟨y, m, d, hh, mm, ss⟩ := t
  have hbounds := h
  simp only [dtValid, Bool.and_eq_true, decide_eq_true_eq] at hbounds
  obtain ⟨⟨⟨⟨⟨⟨⟨⟨hy1, hy2⟩, hm1⟩, hm2⟩, hd1⟩, hd2⟩, hhh⟩, hmm⟩, hss⟩ := hbounds
  have hdle : d < 100 := lt_of_le_of_lt (le_trans hd2 (daysInMonth_le y m)) (by norm_num)
  have htake4 : (pad4 y ++ (pad2 m ++ pad2 d)).take 4 = pad4 y :=
    List.take_left' (by simp [pad4])
  have hdrop4 : (pad4 y ++ (pad2 m ++ pad2 d)).drop 4 = pad2 m ++ pad2 d :=
    List.drop_left' (by simp [pad4])
  have hdrop6 : (pad4 y ++ (pad2 m ++ pad2 d)).drop 6 = pad2 d := by
    rw [show pad4 y ++ (pad2 m ++ pad2 d) = (pad4 y ++ pad2 m) ++ pad2 d by simp]
    exact List.drop_left' (by simp [pad4, pad2])
  have httake2 : (pad2 hh ++ (pad2 mm ++ pad2 ss)).take 2 = pad2 hh :=
    List.take_left' (by simp [pad2])
  have htdrop2 : (pad2 hh ++ (pad2 mm ++ pad2 ss)).drop 2 = pad2 mm ++ pad2 ss :=
    List.drop_left' (by simp [pad2])
  have htdrop4 : (pad2 hh ++ (pad2 mm ++ pad2 ss)).drop 4 = pad2 ss := by
    rw [show pad2 hh ++ (pad2 mm ++ pad2 ss) = (pad2 hh ++ pad2 mm) ++ pad2 ss by simp]
    exact List.drop_left' (by simp [pad2])
  simp only [mkDateTime, htake4, hdrop4, hdrop6, httake2, htdrop2, htdrop4,
    List.take_left' (by simp [pad2] : (pad2 m).length = 2)]
  have hmmss : (pad2 mm ++ pad2 ss).take 2 = pad2 mm :=
    List.take_left' (by simp [pad2])
  rw [hmmss]
  rw [digitsVal_pad4 (by omega), digitsVal_pad2 (by omega), digitsVal_pad2 hdle,
    digitsVal_pad2 (by omega), digitsVal_pad2 (by omega), digitsVal_pad2 (by omega)]
  simp only [h, if_true]

/-! ### Claim C2 (timestamp round-trip) and claim C9 (parser totality) -/

/-- C2, counterexample: the literal composition `parse(format(x))` is `none`,
not `x`, even for a perfectly valid identifier `x`: `format_timestamp` emits
only the bare `YYYYMMDD-HHMMSS` string, while `parse_mrms_filename` demands
the full `MRMS_MergedReflectivityQC_NN.NN_…​.grib2` filename pattern around
it, so the search never matches. -/
theorem parse_format_not_inverse :
    dtValid ⟨2025, 11, 7, 20, 0, 36⟩ = true ∧
      parse_mrms_filename (format_timestamp ⟨2025, 11, 7, 20, 0, 36⟩) = none := by
  constructor
  · decide
  · decide

/-- C2, amended: for every valid identifier `x`, parsing a filename that
embeds `format_timestamp x` in the MRMS pattern returns exactly `x`
(round-trip through a well-formed filename, which is how the codec pair is
actually composed in the repository). -/
theorem parse_embedded_format_roundtrip (t : DateTime) (h : dtValid t = true) :
    parse_mrms_filename
      ("MRMS_MergedReflectivityQC_00.50_" ++ format_timestamp t ++ ".grib2") = some t := by
  have hdata : ("MRMS_MergedReflectivityQC_00.50_" ++ format_timestamp t ++ ".grib2").data
      = "MRMS_MergedReflectivityQC_00.50_".data ++
          ((format_timestamp t).data ++ ".grib2".data) := by
    simp [String.data_append]
  unfold parse_mrms_filename
  rw [hdata, searchMRMS_of_matchAt (matchMRMSAt_embedded t), Option.some_bind,
    mkDateTime_format t h]

/-- Witness for C2's amended round-trip at the spec's example instant
2025-11-07 20:00:36 UTC. -/
theorem parse_embedded_format_roundtrip_witness :
    dtValid ⟨2025, 11, 7, 20, 0, 36⟩ = true ∧
      parse_mrms_filename
        ("MRMS_MergedReflectivityQC_00.50_" ++ format_timestamp ⟨2025, 11, 7, 20, 0, 36⟩ ++
          ".grib2") = some ⟨2025, 11, 7, 20, 0, 36⟩ :=
  ⟨by decide, parse_embedded_format_roundtrip ⟨2025, 11, 7, 20, 0, 36⟩ (by decide)⟩

/-- C9: the parser is a total function (the model returns a value on every
string, mirroring that the Python function catches the only exception its
body can raise), every successful parse is a syntactically valid date-time,
and the non-matching / invalid-date / invalid-time examples all yield `none`:
month 13 and minute 70 are rejected, as is a filename without the pattern. -/
theorem parse_total_and_validates :
    (∀ s : String, parse_mrms_filename s = none ∨
      ∃ t, dtValid t = true ∧ parse_mrms_filename s = some t) ∧
    parse_mrms_filename "MRMS_MergedReflectivityQC_00.50_20251399-250070.grib2" = none ∧
    parse_mrms_filename "MRMS_MergedReflectivityQC_00.50_20251107-207036.grib2" = none ∧
    parse_mrms_filename "invalid_filename.txt" = none := by
  refine ⟨fun s => ?_, by decide, by decide, by decide⟩
  unfold parse_mrms_filename
  cases hs : searchMRMS s.data with
  | none => exact Or.inl rfl
  | some p =>
    simp only [Option.some_bind]
    by_cases hv : dtValid
        { year := digitsVal (p.1.take 4), month := digitsVal ((p.1.drop 4).take 2),
          day := digitsVal (p.1.drop 6), hour := digitsVal (p.2.take 2),
          minute := digitsVal ((p.2.drop 2).take 2), second := digitsVal (p.2.drop 4) } = true
    · exact Or.inr ⟨_, hv, by simp [mkDateTime, hv]⟩
    · exact Or.inl (by simp [mkDateTime, hv])

/-! ## Composite merger (`src/rala.py`, `src/processor.py`) -/

/-- One grid cell: a reflectivity value, or `none` for the NaN missing
sentinel. -/
abbrev Cell := Option ℚ

/-- A decoded reflectivity grid: rows of cells. -/
abbrev Grid := List (List Cell)

/-- One cell of `apply_quality_control`: `qc_data[qc_data < min] = nan;
qc_data[qc_data > max] = nan` (`src/processor.py:156-189`).  A NaN cell
compares false under both `<` and `>` in numpy, so it stays missing. -/
def qcCell (lo hi : ℚ) : Cell → Cell
  | none => none
  | some v => if v < lo ∨ hi < v then none else some v

/-- `apply_quality_control` applied to a whole layer. -/
def apply_quality_control (lo hi : ℚ) (g : Grid) : Grid :=
  g.map (List.map (qcCell lo hi))

/-- One cell of the fill step `rala[fill_mask] = rala_data[fill_mask]`
(`src/rala.py:253-260`): a cell missing in the composite and valid in the
current layer is filled; a populated cell is never overwritten. -/
def fillCell : Cell → Cell → Cell
  | some v, _ => some v
  | none, l => l

/-- Fold one QC'd layer into the composite. -/
def mergeLayer (c l : Grid) : Grid := List.zipWith (List.zipWith fillCell) c l

/-- The two accepted shapes of `generate_rala`'s `file_paths` argument, with
each path already decoded to its reflectivity grid: a dict mapping elevation
to grid, or a bare list of grids (used in the code's list branch, which does
not sort). -/
inductive FilesInput where
  | dict (pairs : List (ℚ × Grid))
  | list (gs : List Grid)

/-- `generate_rala` (`src/rala.py:155-278`): sort dict entries by elevation
ascending, raise `ValueError` on empty input, QC each layer, initialise the
composite from the first (lowest) layer and fill remaining missing cells from
each subsequent layer in order.  The single-layer case goes through
`generate_rala_single` in the code, which computes exactly the QC'd layer —
the same value this uniform fold produces for a one-element list. -/
def generate_rala (lo hi : ℚ) (input : FilesInput) : Except String Grid :=
  let sorted_layers : List Grid :=
    match input with
    | .dict pairs => (pairs.insertionSort (fun a b => a.1 ≤ b.1)).map Prod.snd
    | .list gs => gs
  match sorted_layers with
  | [] => .error "No files provided"
  | g :: gs =>
    .ok ((gs.map (apply_quality_control lo hi)).foldl mergeLayer
      (apply_quality_control lo hi g))

/-- Cell lookup, `none` when out of range. -/
def cellAt (g : Grid) (i j : ℕ) : Cell :=
  (g[i]?.bind fun r => r[j]?).join

/-- `g` is a `rows × cols` rectangular grid. -/
def IsRect (rows cols : ℕ) (g : Grid) : Prop :=
  g.length = rows ∧ ∀ r ∈ g, r.length = cols

/-! ### Merger lemmas -/

lemma zipWith_getElem? {α β γ : Type} (f : α → β → γ) (as : List α) (bs : List β) (i : ℕ) :
    (List.zipWith f as bs)[i]? = (as[i]?).bind fun a => (bs[i]?).map (f a) := by
  induction as generalizing bs i with
  | nil => simp
  | cons a as ih =>
    cases bs with
    | nil => simp
    | cons b bs =>
      cases i with
      | zero => simp
      | succ i => simpa using ih bs i

lemma IsRect.row_getElem? {rows cols : ℕ} {g : Grid} (h : IsRect rows cols g) {i : ℕ}
    (hi : i < rows) : ∃ r, g[i]? = some r ∧ r.length = cols := by
  obtain ⟨hlen, hrows⟩ := h
  have hig : i < g.length := hlen ▸ hi
  exact ⟨g[i], List.getElem?_eq_getElem hig, hrows _ (List.getElem_mem hig)⟩

lemma cellAt_mergeLayer {rows cols : ℕ} {a b : Grid} (ha : IsRect rows cols a)
    (hb : IsRect rows cols b) {i j : ℕ} (hi : i < rows) (hj : j < cols) :
    cellAt (mergeLayer a b) i j = fillCell (cellAt a i j) (cellAt b i j) := by
  obtain ⟨ra, hra, hla⟩ := ha.row_getElem? hi
  obtain ⟨rb, hrb, hlb⟩ := hb.row_getElem? hi
  have hja : j < ra.length := hla ▸ hj
  have hjb : j < rb.length := hlb ▸ hj
  have hca : ra[j]? = some ra[j] := List.getElem?_eq_getElem hja
  have hcb : rb[j]? = some rb[j] := List.getElem?_eq_getElem hjb
  simp [cellAt, mergeLayer, zipWith_getElem?, hra, hrb, hca, hcb]

lemma mem_zipWith {α β γ : Type} {f : α → β → γ} :
    ∀ {l₁ : List α} {l₂ : List β} {x : γ}, x ∈ List.zipWith f l₁ l₂ →
      ∃ a b, a ∈ l₁ ∧ b ∈ l₂ ∧ x = f a b := by
  intro l₁
  induction l₁ with
  | nil => intro l₂ x h; simp at h
  | cons a as ih =>
    intro l₂ x h
    cases l₂ with
    | nil => simp at h
    | cons b bs =>
      rcases List.mem_cons.1 h with h | h
      · exact ⟨a, b, by simp, by simp, h⟩
      · obtain ⟨a', b', ha', hb', hx⟩ := ih h
        exact ⟨a', b', by simp [ha'], by simp [hb'], hx⟩

lemma isRect_qc {rows cols : ℕ} {g : Grid} (h : IsRect rows cols g) (lo hi : ℚ) :
    IsRect rows cols (apply_quality_control lo hi g) := by
  obtain ⟨hlen, hrows⟩ := h
  refine ⟨by simp [apply_quality_control, hlen], ?_⟩
  intro r hr
  obtain ⟨r₀, hr₀, rfl⟩ := List.mem_map.1 hr
  simp [hrows r₀ hr₀]

lemma isRect_mergeLayer {rows cols : ℕ} {a b : Grid} (ha : IsRect rows cols a)
    (hb : IsRect rows cols b) : IsRect rows cols (mergeLayer a b) := by
  refine ⟨by simp only [mergeLayer, List.length_zipWith, ha.1, hb.1, Nat.min_self], ?_⟩
  intro r hr
  obtain ⟨ra, rb, hra, hrb, rfl⟩ := mem_zipWith hr
  simp only [List.length_zipWith, ha.2 ra hra, hb.2 rb hrb, Nat.min_self]

lemma cellAt_foldl_merge {rows cols : ℕ} :
    ∀ (gs : List Grid) (g0 : Grid), IsRect rows cols g0 →
      (∀ g ∈ gs, IsRect rows cols g) → ∀ {i j : ℕ}, i < rows → j < cols →
      cellAt (gs.foldl mergeLayer g0) i j =
        (g0 :: gs).findSome? (fun g => cellAt g i j) := by
  intro gs
  induction gs with
  | nil =>
    intro g0 _ _ i j _ _
    cases h0 : cellAt g0 i j <;> simp [List.findSome?, h0]
  | cons g1 gs ih =>
    intro g0 h0 hgs i j hir hjc
    have h1 : IsRect rows cols g1 := hgs g1 (by simp)
    have hm : IsRect rows cols (mergeLayer g0 g1) := isRect_mergeLayer h0 h1
    have := ih (mergeLayer g0 g1) hm (fun g hg => hgs g (by simp [hg])) hir hjc
    rw [List.foldl_cons, this]
    have hcell := cellAt_mergeLayer h0 h1 hir hjc
    cases h0c : cellAt g0 i j with
    | some v => simp [List.findSome?, hcell, h0c, fillCell]
    | none =>
      cases h1c : cellAt g1 i j with
      | some w => simp [List.findSome?, hcell, h0c, h1c, fillCell]
      | none => simp [List.findSome?, hcell, h0c, h1c, fillCell]

lemma findSome?_map' {α β γ : Type} (g : α → β) (f : β → Option γ) (l : List α) :
    (l.map g).findSome? f = l.findSome? (fun a => f (g a)) := by
  induction l with
  | nil => rfl
  | cons a l ih =>
    cases h : f (g a) <;> simp [List.findSome?, h, ih]

lemma findSome?_none_iff {α β : Type} (f : α → Option β) (l : List α) :
    l.findSome? f = none ↔ ∀ a ∈ l, f a = none := by
  induction l with
  | nil => simp
  | cons a l ih =>
    cases h : f a <;> simp [List.findSome?, h, ih]

lemma findSome?_append_first {α β : Type} {f : α → Option β} {v : β} :
    ∀ (l1 : List α) (p : α) (l2 : List α), (∀ q ∈ l1, f q = none) → f p = some v →
      (l1 ++ p :: l2).findSome? f = some v := by
  intro l1
  induction l1 with
  | nil => intro p l2 _ hp; simp [List.findSome?, hp]
  | cons a l1 ih =>
    intro p l2 hnone hp
    have ha : f a = none := hnone a (by simp)
    simp only [List.cons_append, List.findSome?, ha]
    exact ih p l2 (fun q hq => hnone q (by simp [hq])) hp

instance : IsTotal (ℚ × Grid) (fun a b => a.1 ≤ b.1) := ⟨fun a b => le_total a.1 b.1⟩

instance : IsTrans (ℚ × Grid) (fun a b => a.1 ≤ b.1) := ⟨fun _ _ _ h1 h2 => le_trans h1 h2⟩

lemma generate_rala_dict_eq (lo hi : ℚ) (pairs : List (ℚ × Grid)) (hne : pairs ≠ []) :
    ∃ g gs, (pairs.insertionSort (fun a b => a.1 ≤ b.1)).map Prod.snd = g :: gs ∧
      generate_rala lo hi (.dict pairs) =
        .ok ((gs.map (apply_quality_control lo hi)).foldl mergeLayer
          (apply_quality_control lo hi g)) := by
  cases hmap : (pairs.insertionSort (fun a b => a.1 ≤ b.1)).map Prod.snd with
  | nil =>
    exfalso
    have := (pairs.perm_insertionSort (fun a b => a.1 ≤ b.1)).length_eq
    have hlen : pairs.length = 0 := by
      simpa [this] using congrArg List.length hmap
    exact hne (List.length_eq_zero.1 hlen)
  | cons g gs =>
    exact ⟨g, gs, rfl, by simp [generate_rala, hmap]⟩

/-- C1: for a non-empty dict of same-shape layers, each cell of the composite
produced by `generate_rala` is the value of the lowest elevation whose QC'd
layer is non-missing at that cell, and stays missing when every QC'd layer is
missing there; a cell filled by a lower elevation is never overwritten. -/
theorem rala_lowest_valid_fill (lo hi : ℚ) (pairs : List (ℚ × Grid)) (rows cols : ℕ)
    (comp : Grid) (i j : ℕ) (hne : pairs ≠ [])
    (hrect : ∀ p ∈ pairs, IsRect rows cols p.2)
    (hkeys : (pairs.map Prod.fst).Nodup)
    (hir : i < rows) (hjc : j < cols)
    (hcomp : generate_rala lo hi (.dict pairs) = .ok comp) :
    ((∀ p ∈ pairs, cellAt (apply_quality_control lo hi p.2) i j = none) →
        cellAt comp i j = none) ∧
    (∀ p ∈ pairs, ∀ v : ℚ, cellAt (apply_quality_control lo hi p.2) i j = some v →
        (∀ q ∈ pairs, cellAt (apply_quality_control lo hi q.2) i j ≠ none → p.1 ≤ q.1) →
        cellAt comp i j = some v) := by
  obtain ⟨g, gs, hmap, hgen⟩ := generate_rala_dict_eq lo hi pairs hne
  rw [hcomp] at hgen
  have hcompeq : comp =
      (gs.map (apply_quality_control lo hi)).foldl mergeLayer
        (apply_quality_control lo hi g) := Except.ok.inj hgen
  have hperm : (pairs.insertionSort (fun a b => a.1 ≤ b.1)).Perm pairs :=
    List.perm_insertionSort _ _
  have hrectL : ∀ x ∈ g :: gs, IsRect rows cols x := by
    intro x hx
    rw [← hmap] at hx
    obtain ⟨p, hp, rfl⟩ := List.mem_map.1 hx
    exact hrect p (hperm.mem_iff.1 hp)
  have hcell : cellAt comp i j =
      (pairs.insertionSort (fun a b => a.1 ≤ b.1)).findSome?
        (fun p => cellAt (apply_quality_control lo hi p.2) i j) := by
    rw [hcompeq,
      cellAt_foldl_merge (gs.map (apply_quality_control lo hi))
        (apply_quality_control lo hi g) (isRect_qc (hrectL g (by simp)) lo hi)
        (by
          intro x hx
          obtain ⟨x0, hx0, rfl⟩ := List.mem_map.1 hx
          exact isRect_qc (hrectL x0 (by simp [hx0])) lo hi) hir hjc,
      show (apply_quality_control lo hi g :: gs.map (apply_quality_control lo hi))
          = (g :: gs).map (apply_quality_control lo hi) from rfl,
      findSome?_map', ← hmap, findSome?_map']
  constructor
  · intro hall
    rw [hcell]
    exact (findSome?_none_iff _ _).2 fun p hp => hall p (hperm.mem_iff.1 hp)
  · intro p hp v hv hmin
    have hps : p ∈ pairs.insertionSort (fun a b => a.1 ≤ b.1) := hperm.mem_iff.2 hp
    obtain ⟨l1, l2, hsplit⟩ := List.append_of_mem hps
    have hsort : List.Sorted (fun a b : ℚ × Grid => a.1 ≤ b.1)
        (pairs.insertionSort (fun a b => a.1 ≤ b.1)) := List.sorted_insertionSort _ _
    have hnodup : ((pairs.insertionSort (fun a b => a.1 ≤ b.1)).map Prod.fst).Nodup :=
      ((hperm.map Prod.fst).nodup_iff).2 hkeys
    rw [hsplit] at hsort hnodup
    have hl1 : ∀ q ∈ l1, cellAt (apply_quality_control lo hi q.2) i j = none := by
      intro q hq
      by_contra hqn
      have hqpairs : q ∈ pairs :=
        hperm.mem_iff.1 (hsplit ▸ List.mem_append_left _ hq)
      have hle : p.1 ≤ q.1 := hmin q hqpairs hqn
      have hge : q.1 ≤ p.1 := (List.pairwise_append.1 hsort).2.2 q hq p (by simp)
      have heq : q.1 = p.1 := le_antisymm hge hle
      rw [List.map_append] at hnodup
      have hdisj := (List.nodup_append.1 hnodup).2.2
      exact hdisj (List.mem_map.2 ⟨q, hq, rfl⟩) (heq ▸ by simp)
    rw [hcell, hsplit]
    exact findSome?_append_first l1 p l2 hl1 hv

instance (r c : ℕ) (g : Grid) : Decidable (IsRect r c g) :=
  decidable_of_iff (g.length = r ∧ ∀ row ∈ g, row.length = c) Iff.rfl

/-- The two QC'd example layers of the spec: `A = [[5, NaN], [NaN, 10]]` at
the lower elevation and `B = [[NaN, 7], [3, NaN]]` at the higher one.  (The
witness uses elevation keys 1 < 2 standing for the spec's 0.5 < 1.0; only
their order matters, and non-integer rationals do not kernel-reduce.) -/
def gridA : Grid := [[some 5, none], [none, some 10]]

/-- Second example layer. -/
def gridB : Grid := [[none, some 7], [some 3, none]]

/-- Concrete evaluation of the merge on the example layers. -/
lemma rala_example_eval : generate_rala (-30) 80 (.dict [((1 : ℚ), gridA), (2, gridB)]) =
    .ok [[some 5, some 7], [some 3, some 10]] := rfl

/-- Witness for C1 at the spec's example: merging A (lower elevation) with
B (higher elevation) yields `[[5, 7], [3, 10]]`, and the gap-filled cell
(0,1) is obtained from the general theorem. -/
theorem rala_lowest_valid_fill_witness :
    generate_rala (-30) 80 (.dict [((1 : ℚ), gridA), (2, gridB)]) =
        .ok [[some 5, some 7], [some 3, some 10]] ∧
      cellAt [[some 5, some 7], [some 3, some 10]] 0 1 = some 7 :=
  ⟨rala_example_eval,
   (rala_lowest_valid_fill (-30) 80 [((1 : ℚ), gridA), (2, gridB)] 2 2
      [[some 5, some 7], [some 3, some 10]] 0 1 (by decide) (by decide) (by decide)
      (by decide) (by decide) rala_example_eval).2
    ((2 : ℚ), gridB) (by decide) 7 (by decide) (by decide)⟩

/-- C4: quality control with the default range `[-30, 80]` maps every value
strictly outside the range to missing, keeps in-range values (including the
boundary `-30`) unchanged, maps `85` to missing, leaves missing cells
missing, and is what `generate_rala` applies to a layer before merging (shown
here on the single-layer path). -/
theorem quality_control_range :
    (∀ (g : Grid) (i j : ℕ) (v : ℚ), cellAt g i j = some v →
        cellAt (apply_quality_control (-30) 80 g) i j =
          if v < -30 ∨ 80 < v then none else some v) ∧
    (∀ (g : Grid) (i j : ℕ), cellAt g i j = none →
        cellAt (apply_quality_control (-30) 80 g) i j = none) ∧
    qcCell (-30) 80 (some 85) = none ∧
    qcCell (-30) 80 (some (-30)) = some (-30) ∧
    (∀ (e : ℚ) (g : Grid), generate_rala (-30) 80 (.dict [(e, g)]) =
        .ok (apply_quality_control (-30) 80 g)) := by
  have hq : ∀ (lo hi : ℚ) (g : Grid) (i j : ℕ),
      cellAt (apply_quality_control lo hi g) i j = qcCell lo hi (cellAt g i j) := by
    intro lo hi g i j
    unfold cellAt apply_quality_control
    cases hg : g[i]? with
    | none => simp [List.getElem?_map, hg, qcCell]
    | some r =>
      cases hr : r[j]? with
      | none => simp [List.getElem?_map, hg, hr, qcCell]
      | some c => cases c <;> simp [List.getElem?_map, hg, hr, qcCell]
  refine ⟨?_, ?_, rfl, by norm_num [qcCell], fun e g => rfl⟩
  · intro g i j v hv
    rw [hq, hv]
    rfl
  · intro g i j hv
    rw [hq, hv]
    rfl

/-- Witness for C4: a raw 85 becomes missing after QC, via the general
cell-wise theorem. -/
theorem quality_control_range_witness :
    cellAt (apply_quality_control (-30) 80 [[some 85]]) 0 0 = none := by
  have h := quality_control_range.1 [[some 85]] 0 0 85 rfl
  norm_num at h
  exact h

/-- C10: the degenerate empty input — empty dict or empty list — makes
`generate_rala` fail with the `ValueError` message rather than produce a
composite. -/
theorem generate_rala_empty_error (lo hi : ℚ) :
    generate_rala lo hi (.dict []) = .error "No files provided" ∧
      generate_rala lo hi (.list []) = .error "No files provided" :=
  ⟨rfl, rfl⟩

/-! ## Dedup ledger (`src/download_tracker.py`) -/

/-- `sorted(list(timestamps), reverse=True)`: the set's elements in
descending lexicographic order (Python compares `str` by code points, as
Lean's `String` order does). -/
def sortedDesc (s : Finset String) : List String := s.sort (· ≥ ·)

/-- `sorted(...)[:K]` as a set: the `K` largest elements (all of them when
the set is smaller). -/
def topKF (K : ℕ) (s : Finset String) : Finset String := ((sortedDesc s).take K).toFinset

/-- `DownloadTracker`'s mutable state: the in-memory timestamp set and
last-check string, plus the persisted `downloads.json` record (timestamp
list and last-check). -/
structure TrackerState where
  timestamps : Finset String
  last_check : String
  saved : List String × String
deriving DecidableEq

/-- `_save` (`src/download_tracker.py:53-64`): persist the sorted,
truncated timestamp list and the last-check string. -/
def saveRecord (K : ℕ) (ts : Finset String) (lc : String) : List String × String :=
  ((sortedDesc ts).take K, lc)

/-- `cleanup_old` (`src/download_tracker.py:97-115`): if over capacity, keep
only the `K` most recent timestamps; returns the new set and the number
removed. -/
def cleanup_old (K : ℕ) (s : Finset String) : Finset String × ℕ :=
  if s.card ≤ K then (s, 0)
  else (((sortedDesc s).take K).toFinset, s.card - K)

/-- `has_timestamp` (`src/download_tracker.py:66-77`). -/
def has_timestamp (s : TrackerState) (t : String) : Bool := t ∈ s.timestamps

/-- `add_timestamp` (`src/download_tracker.py:79-95`): early-return when the
timestamp is already tracked (before touching `_last_check`); otherwise
insert, set last-check to the current instant, evict over-capacity
timestamps and persist. -/
def add_timestamp (K : ℕ) (now : String) (t : String) (s : TrackerState) : TrackerState :=
  if t ∈ s.timestamps then s
  else
    let ts2 := (cleanup_old K (insert t s.timestamps)).1
    { timestamps := ts2, last_check := now, saved := saveRecord K ts2 now }

/-- `get_timestamps` (`src/download_tracker.py:117-125`). -/
def get_timestamps (s : TrackerState) : List String := sortedDesc s.timestamps

/-- Fresh tracker state from `_load` with no tracker file: empty set,
last-check set to now, record persisted. -/
def emptyTracker (K : ℕ) (now0 : String) : TrackerState :=
  { timestamps := ∅, last_check := now0, saved := saveRecord K ∅ now0 }

/-- A sequence of `add_timestamp` calls, each with its own current instant. -/
def run_adds (K : ℕ) (adds : List (String × String)) (s0 : TrackerState) : TrackerState :=
  adds.foldl (fun s nt => add_timestamp K nt.1 nt.2 s) s0

/-! ### Top-K theory for the eviction invariant -/

lemma sortedDesc_sorted (s : Finset String) : List.Sorted (· ≥ ·) (sortedDesc s) :=
  Finset.sort_sorted _ _

lemma sortedDesc_nodup (s : Finset String) : (sortedDesc s).Nodup :=
  Finset.sort_nodup _ _

lemma mem_sortedDesc {s : Finset String} {x : String} : x ∈ sortedDesc s ↔ x ∈ s :=
  Finset.mem_sort _

lemma sortedDesc_toFinset (s : Finset String) : (sortedDesc s).toFinset = s :=
  Finset.sort_toFinset _ _

lemma length_sortedDesc (s : Finset String) : (sortedDesc s).length = s.card :=
  Finset.length_sort _

lemma countGT_eq (s : Finset String) (x : String) :
    ((sortedDesc s).filter (fun y => decide (x < y))).length
      = (s.filter (fun y => x < y)).card := by
  have h1 : ((sortedDesc s).filter (fun y => decide (x < y))).length
      = (s.toList.filter (fun y => decide (x < y))).length :=
    ((Finset.sort_perm_toList _ _).filter _).length_eq
  rw [h1, ← List.countP_eq_length_filter]
  have h2 : (s.filter (fun y => x < y)).card = Multiset.countP (fun y => x < y) s.val := by
    rw [Multiset.countP_eq_card_filter]
    rfl
  rw [h2, ← Multiset.coe_toList s.val]
  rfl

lemma mem_take_sorted_iff :
    ∀ {l : List String}, List.Sorted (· ≥ ·) l → l.Nodup → ∀ (K : ℕ) (x : String),
      x ∈ l.take K ↔ x ∈ l ∧ (l.filter (fun y => decide (x < y))).length < K := by
  intro l
  induction l with
  | nil => simp
  | cons a l ih =>
    intro hs hn K x
    have hal : ∀ b ∈ l, a ≥ b := (List.sorted_cons.1 hs).1
    have hsl : List.Sorted (· ≥ ·) l := (List.sorted_cons.1 hs).2
    have hnl : l.Nodup := (List.nodup_cons.1 hn).2
    cases K with
    | zero => simp
    | succ K =>
      by_cases hxa : x = a
      · subst hxa
        have hf : (x :: l).filter (fun y => decide (x < y)) = [] := by
          rw [List.filter_cons_of_neg (by simp)]
          exact List.filter_eq_nil_iff.2 fun b hb => by simp [not_lt.2 (hal b hb)]
        simp only [List.take_succ_cons, List.mem_cons, hf, List.length_nil]
        constructor
        · intro _
          exact ⟨by simp, by omega⟩
        · intro _
          simp
      · by_cases hxl : x ∈ l
        · have hxa' : x < a := lt_of_le_of_ne (hal x hxl) hxa
          have hfa : (a :: l).filter (fun y => decide (x < y))
              = a :: l.filter (fun y => decide (x < y)) :=
            List.filter_cons_of_pos (by simp [hxa'])
          simp only [List.take_succ_cons, List.mem_cons, hxa, false_or, hfa,
            List.length_cons, ih hsl hnl K x, hxl, true_and]
          omega
        · have hnt : x ∉ l.take K := fun h => hxl (List.take_subset _ _ h)
          simp [hxa, hxl, hnt]

lemma mem_topKF {K : ℕ} {s : Finset String} {x : String} :
    x ∈ topKF K s ↔ x ∈ s ∧ (s.filter (fun y => x < y)).card < K := by
  rw [topKF, List.mem_toFinset,
    mem_take_sorted_iff (sortedDesc_sorted s) (sortedDesc_nodup s) K x,
    mem_sortedDesc, countGT_eq]

lemma topKF_subset (K : ℕ) (s : Finset String) : topKF K s ⊆ s :=
  fun _ hx => (mem_topKF.1 hx).1

lemma card_topKF_le (K : ℕ) (s : Finset String) : (topKF K s).card ≤ K :=
  le_trans (List.toFinset_card_le _)
    (le_trans (le_of_eq (List.length_take _ _)) (min_le_left _ _))

lemma topKF_of_card_le {K : ℕ} {s : Finset String} (h : s.card ≤ K) : topKF K s = s := by
  rw [topKF, List.take_of_length_le (by rw [length_sortedDesc]; exact h), sortedDesc_toFinset]

lemma card_topKF_of_le {K : ℕ} {s : Finset String} (h : K ≤ s.card) :
    (topKF K s).card = K := by
  rw [topKF, List.toFinset_card_of_nodup (List.Nodup.sublist (List.take_sublist _ _)
    (sortedDesc_nodup s)), List.length_take, length_sortedDesc]
  exact min_eq_left h

lemma mem_topKF_of_lt {K : ℕ} {E : Finset String} {x y : String} (hx : x ∈ topKF K E)
    (hyE : y ∈ E) (hxy : x < y) : y ∈ topKF K E := by
  rcases mem_topKF.1 hx with ⟨hxE, hcx⟩
  refine mem_topKF.2 ⟨hyE, ?_⟩
  have hsub : E.filter (fun z => y < z) ⊆ (E.filter (fun z => x < z)).erase y := by
    intro z hz
    rcases Finset.mem_filter.1 hz with ⟨hzE, hyz⟩
    exact Finset.mem_erase.2 ⟨ne_of_gt hyz, Finset.mem_filter.2 ⟨hzE, lt_trans hxy hyz⟩⟩
  have h1 := Finset.card_le_card hsub
  have h2 : ((E.filter (fun z => x < z)).erase y).card
      = (E.filter (fun z => x < z)).card - 1 :=
    Finset.card_erase_of_mem (Finset.mem_filter.2 ⟨hyE, hxy⟩)
  have h3 : 0 < (E.filter (fun z => x < z)).card :=
    Finset.card_pos.2 ⟨y, Finset.mem_filter.2 ⟨hyE, hxy⟩⟩
  omega

lemma filter_lt_topKF_eq {K : ℕ} {E : Finset String} {x : String} (hx : x ∈ topKF K E) :
    (topKF K E).filter (fun y => x < y) = E.filter (fun y => x < y) := by
  apply Finset.Subset.antisymm
  · exact Finset.filter_subset_filter _ (topKF_subset K E)
  · intro y hy
    rcases Finset.mem_filter.1 hy with ⟨hyE, hxy⟩
    exact Finset.mem_filter.2 ⟨mem_topKF_of_lt hx hyE hxy, hxy⟩

lemma c_topKF_lt_iff {K : ℕ} (E : Finset String) (t : String) :
    ((topKF K E).filter (fun y => t < y)).card < K ↔
      (E.filter (fun y => t < y)).card < K := by
  constructor
  · intro h
    by_contra hE'
    push_neg at hE'
    have hSsub : topKF K E ⊆ E.filter (fun y => t < y) := by
      intro y hy
      rcases mem_topKF.1 hy with ⟨hyE, hcy⟩
      refine Finset.mem_filter.2 ⟨hyE, ?_⟩
      by_contra hty
      have hmono : E.filter (fun z => t < z) ⊆ E.filter (fun z => y < z) := by
        intro z hz
        rcases Finset.mem_filter.1 hz with ⟨hzE, htz⟩
        exact Finset.mem_filter.2 ⟨hzE, lt_of_le_of_lt (not_lt.1 hty) htz⟩
      have := Finset.card_le_card hmono
      omega
    have hfS : (topKF K E).filter (fun y => t < y) = topKF K E :=
      Finset.filter_eq_self.2 fun y hy => (Finset.mem_filter.1 (hSsub hy)).2
    have hKE : K ≤ E.card :=
      le_trans hE' (Finset.card_le_card (Finset.filter_subset _ _))
    rw [hfS, card_topKF_of_le hKE] at h
    omega
  · intro hE
    exact lt_of_le_of_lt
      (Finset.card_le_card (Finset.filter_subset_filter _ (topKF_subset K E))) hE

lemma topKF_insert_topKF (K : ℕ) (t : String) (E : Finset String) :
    topKF K (insert t (topKF K E)) = topKF K (insert t E) := by
  ext x
  by_cases hxt : x = t
  · subst hxt
    rw [mem_topKF, mem_topKF]
    have h1 : (insert x (topKF K E)).filter (fun y => x < y)
        = (topKF K E).filter (fun y => x < y) := by
      rw [Finset.filter_insert, if_neg (lt_irrefl x)]
    have h2 : (insert x E).filter (fun y => x < y) = E.filter (fun y => x < y) := by
      rw [Finset.filter_insert, if_neg (lt_irrefl x)]
    simp only [Finset.mem_insert, true_or, true_and, h1, h2]
    exact c_topKF_lt_iff E x
  · by_cases hxS : x ∈ topKF K E
    · have hxE : x ∈ E := topKF_subset K E hxS
      rw [mem_topKF, mem_topKF, Finset.filter_insert, Finset.filter_insert,
        filter_lt_topKF_eq hxS]
      simp only [Finset.mem_insert, hxS, hxE, or_true, true_and]
    · by_cases hxE : x ∈ E
      · have hcx : K ≤ (E.filter (fun y => x < y)).card := by
          by_contra hc
          exact hxS (mem_topKF.2 ⟨hxE, not_le.1 hc⟩)
        constructor
        · intro hx
          rcases Finset.mem_insert.1 (mem_topKF.1 hx).1 with h | h
          · exact absurd h hxt
          · exact absurd h hxS
        · intro hx
          rcases mem_topKF.1 hx with ⟨-, hcard⟩
          exfalso
          have hmono : E.filter (fun y => x < y) ⊆ (insert t E).filter (fun y => x < y) :=
            Finset.filter_subset_filter _ (Finset.subset_insert t E)
          have := Finset.card_le_card hmono
          omega
      · constructor
        · intro hx
          rcases Finset.mem_insert.1 (mem_topKF.1 hx).1 with h | h
          · exact absurd h hxt
          · exact absurd h hxS
        · intro hx
          rcases Finset.mem_insert.1 (mem_topKF.1 hx).1 with h | h
          · exact absurd h hxt
          · exact absurd h hxE

lemma add_timestamp_of_mem {K : ℕ} {now t : String} {s : TrackerState}
    (h : t ∈ s.timestamps) : add_timestamp K now t s = s := by
  unfold add_timestamp
  rw [if_pos h]

lemma cleanup_old_fst (K : ℕ) (s : Finset String) : (cleanup_old K s).1 = topKF K s := by
  unfold cleanup_old
  split
  · next h => exact (topKF_of_card_le h).symm
  · rfl

lemma add_timestamp_timestamps (K : ℕ) (now t : String) (s : TrackerState) :
    (add_timestamp K now t s).timestamps =
      if t ∈ s.timestamps then s.timestamps else topKF K (insert t s.timestamps) := by
  unfold add_timestamp
  split
  · rfl
  · simp [cleanup_old_fst]

lemma run_adds_timestamps (K : ℕ) :
    ∀ (adds : List (String × String)) (s : TrackerState) (E : Finset String),
      s.timestamps = topKF K E →
      (run_adds K adds s).timestamps = topKF K (E ∪ (adds.map Prod.snd).toFinset) := by
  intro adds
  induction adds with
  | nil =>
    intro s E h
    simpa [run_adds] using h
  | cons nt adds ih =>
    intro s E h
    show (run_adds K adds (add_timestamp K nt.1 nt.2 s)).timestamps = _
    by_cases hmem : nt.2 ∈ s.timestamps
    · rw [add_timestamp_of_mem hmem, ih s E h]
      congr 1
      have hE : nt.2 ∈ E := topKF_subset K E (h ▸ hmem)
      rw [List.map_cons, List.toFinset_cons, Finset.union_insert,
        Finset.insert_eq_self.2 (Finset.mem_union_left _ hE)]
    · have hstep : (add_timestamp K nt.1 nt.2 s).timestamps = topKF K (insert nt.2 E) := by
        rw [add_timestamp_timestamps, if_neg hmem, h, topKF_insert_topKF]
      rw [ih _ (insert nt.2 E) hstep]
      congr 1
      rw [List.map_cons, List.toFinset_cons, Finset.union_insert, Finset.insert_union]

/-- C3: starting from an empty tracker with capacity `K`, after any sequence
of `add_timestamp` calls the visible set has at most `K` elements, its
members are exactly the identifiers ever added that have fewer than `K`
larger (newer) added identifiers — i.e. the `K` largest — and when at most
`K` distinct identifiers were ever added the set is all of them. -/
theorem tracker_eviction_invariant (K : ℕ) (now0 : String) (adds : List (String × String)) :
    ((run_adds K adds (emptyTracker K now0)).timestamps).card ≤ K ∧
    (∀ x, x ∈ (run_adds K adds (emptyTracker K now0)).timestamps ↔
      x ∈ (adds.map Prod.snd).toFinset ∧
        (((adds.map Prod.snd).toFinset).filter (fun y => x < y)).card < K) ∧
    ((adds.map Prod.snd).toFinset.card ≤ K →
      (run_adds K adds (emptyTracker K now0)).timestamps = (adds.map Prod.snd).toFinset) := by
  have hempty : (emptyTracker K now0).timestamps = topKF K ∅ := by
    rw [topKF_of_card_le (by simp)]
    rfl
  have hrun := run_adds_timestamps K adds (emptyTracker K now0) ∅ hempty
  rw [Finset.empty_union] at hrun
  refine ⟨?_, ?_, ?_⟩
  · rw [hrun]
    exact card_topKF_le _ _
  · intro x
    rw [hrun]
    exact mem_topKF
  · intro h
    rw [hrun]
    exact topKF_of_card_le h

/-- C6, counterexample: adding an already-present identifier does NOT update
the last-check time — `add_timestamp` returns before touching `_last_check`
— contradicting the claim that last-check is set to the current instant. -/
theorem add_present_last_check_not_updated :
    (add_timestamp 100 "2025-06-01T00:00:00" "20250101-000000"
        { timestamps := {"20250101-000000"}, last_check := "2025-01-01T00:00:00",
          saved := (["20250101-000000"], "2025-01-01T00:00:00") }).last_check
      ≠ "2025-06-01T00:00:00" := by
  rw [add_timestamp_of_mem (by simp)]
  decide

/-- C6, amended: adding an already-present identifier is a complete no-op:
the visible set, the persisted record and the last-check time are all
unchanged (last-check is not updated, since the code returns before setting
it). -/
theorem add_present_noop (K : ℕ) (now t : String) (s : TrackerState)
    (h : t ∈ s.timestamps) : add_timestamp K now t s = s :=
  add_timestamp_of_mem h

/-- Witness for C6's amended no-op at a concrete state. -/
theorem add_present_noop_witness :
    "20250101-000000" ∈
        ({"20250101-000000"} : Finset String) ∧
      add_timestamp 100 "2025-06-01T00:00:00" "20250101-000000"
          { timestamps := {"20250101-000000"}, last_check := "2025-01-01T00:00:00",
            saved := (["20250101-000000"], "2025-01-01T00:00:00") }
        = { timestamps := {"20250101-000000"}, last_check := "2025-01-01T00:00:00",
            saved := (["20250101-000000"], "2025-01-01T00:00:00") } :=
  ⟨by simp, add_present_noop 100 "2025-06-01T00:00:00" "20250101-000000" _ (by simp)⟩

lemma str_lt_20250101_20250102 : ("20250101-000000" : String) < "20250102-000000" := by
  rw [String.lt_iff_toList_lt]
  decide

/-- C7, counterexample: with capacity 1 and a tracker already holding a
newer identifier, adding an older identifier evicts it immediately, so
`has_timestamp` is false right after `add_timestamp` — refuting "has(id) is
true after add" for arbitrary states. -/
theorem add_evicted_not_member :
    has_timestamp (add_timestamp 1 "now" "20250101-000000"
      { timestamps := {"20250102-000000"}, last_check := "t0",
        saved := (["20250102-000000"], "t0") }) "20250101-000000" = false := by
  have h1 : (add_timestamp 1 "now" "20250101-000000"
      { timestamps := {"20250102-000000"}, last_check := "t0",
        saved := (["20250102-000000"], "t0") } : TrackerState).timestamps
      = topKF 1 ({"20250101-000000", "20250102-000000"} : Finset String) := by
    rw [add_timestamp_timestamps, if_neg (by decide)]
  have h2 : ("20250101-000000" : String) ∉
      topKF 1 ({"20250101-000000", "20250102-000000"} : Finset String) := by
    rw [mem_topKF]
    rintro ⟨-, hc⟩
    have hf : ({"20250101-000000", "20250102-000000"} : Finset String).filter
        (fun y => "20250101-000000" < y) = {"20250102-000000"} := by
      rw [Finset.filter_insert, if_neg (lt_irrefl _), Finset.filter_singleton,
        if_pos str_lt_20250101_20250102]
    rw [hf] at hc
    simp at hc
  unfold has_timestamp
  rw [h1]
  exact decide_eq_false h2

/-- C7, amended: a second `add_timestamp` of the same identifier leaves the
visible set exactly as after the first (unconditionally), and `has_timestamp`
is true after an add provided fewer than `K` tracked identifiers greater
(newer) than it were present — without that proviso the add itself may evict
the identifier (see the counterexample). -/
theorem add_idempotent_visible_set (K : ℕ) (now now2 t : String) (s : TrackerState) :
    ((add_timestamp K now2 t (add_timestamp K now t s)).timestamps
        = (add_timestamp K now t s).timestamps) ∧
      ((s.timestamps.filter (fun y => t < y)).card < K →
        has_timestamp (add_timestamp K now t s) t = true) := by
  constructor
  · by_cases h1 : t ∈ s.timestamps
    · rw [add_timestamp_of_mem h1, add_timestamp_of_mem h1]
    · have hts : (add_timestamp K now t s).timestamps
          = topKF K (insert t s.timestamps) := by
        rw [add_timestamp_timestamps, if_neg h1]
      by_cases h2 : t ∈ (add_timestamp K now t s).timestamps
      · rw [add_timestamp_of_mem h2]
      · rw [add_timestamp_timestamps, if_neg h2, hts, topKF_insert_topKF,
          Finset.insert_idem, ← hts]
  · intro hcard
    by_cases h1 : t ∈ s.timestamps
    · rw [add_timestamp_of_mem h1]
      exact decide_eq_true h1
    · have hts : (add_timestamp K now t s).timestamps
          = topKF K (insert t s.timestamps) := by
        rw [add_timestamp_timestamps, if_neg h1]
      unfold has_timestamp
      rw [hts]
      apply decide_eq_true
      refine mem_topKF.2 ⟨Finset.mem_insert_self t _, ?_⟩
      rw [Finset.filter_insert, if_neg (lt_irrefl t)]
      exact hcard

/-- Witness for C7's amended statement at a concrete tracker with spare
capacity. -/
theorem add_idempotent_visible_set_witness :
    (({"20250102-000000"} : Finset String).filter
        (fun y => "20250101-000000" < y)).card < 2 ∧
      has_timestamp (add_timestamp 2 "now" "20250101-000000"
        { timestamps := {"20250102-000000"}, last_check := "t0",
          saved := (["20250102-000000"], "t0") }) "20250101-000000" = true := by
  have hcard : (({"20250102-000000"} : Finset String).filter
      (fun y => "20250101-000000" < y)).card < 2 := by
    rw [Finset.filter_singleton, if_pos str_lt_20250101_20250102]
    simp
  exact ⟨hcard,
    (add_idempotent_visible_set 2 "now" "now" "20250101-000000"
      { timestamps := {"20250102-000000"}, last_check := "t0",
        saved := (["20250102-000000"], "t0") }).2 hcard⟩

/-! ## Cache janitor (`src/utils.py` `cleanup_old_files`) -/

/-- A directory entry: (modification time, file identity). -/
abbrev FileEntry := ℕ × ℕ

instance : IsTotal FileEntry (fun a b => b.1 ≤ a.1) := ⟨fun a b => le_total b.1 a.1⟩

instance : IsTrans FileEntry (fun a b => b.1 ≤ a.1) := ⟨fun _ _ _ h1 h2 => le_trans h2 h1⟩

/-- `cleanup_old_files` (`src/utils.py:151-175`): sort the directory's files
by modification time descending (Python's stable sort; `insertionSort` by
the `≥`-on-mtime relation is likewise stable), return 0 if within the limit,
else unlink every file beyond position `max_files` — an `unlink` failure
(modelled by `unlinkFails`) is caught and does not stop the remaining
deletions — and return `len(files_to_remove)`.  The result is the surviving
directory contents paired with the returned count. -/
def cleanup_old_files (files : List FileEntry) (unlinkFails : FileEntry → Bool)
    (max_files : ℕ) : List FileEntry × ℕ :=
  let sortedF := files.insertionSort (fun a b => b.1 ≤ a.1)
  if files.length ≤ max_files then (files, 0)
  else
    let toRemove := sortedF.drop max_files
    let deleted := toRemove.filter (fun f => !unlinkFails f)
    (files.filter (fun f => decide (f ∉ deleted)), toRemove.length)

lemma cleanup_old_files_of_le {files : List FileEntry} {fails : FileEntry → Bool}
    {maxf : ℕ} (h : files.length ≤ maxf) :
    cleanup_old_files files fails maxf = (files, 0) := by
  simp only [cleanup_old_files, if_pos h]

lemma cleanup_old_files_of_gt {files : List FileEntry} {fails : FileEntry → Bool}
    {maxf : ℕ} (h : maxf < files.length) :
    cleanup_old_files files fails maxf =
      (files.filter (fun f => decide (f ∉
          ((files.insertionSort (fun a b => b.1 ≤ a.1)).drop maxf).filter
            (fun f => !fails f))),
       ((files.insertionSort (fun a b => b.1 ≤ a.1)).drop maxf).length) := by
  simp only [cleanup_old_files, if_neg (not_le.2 h)]

/-- C8: the janitor's returned count is `max(0, n - max_files)`; with no
deletion failures the survivors are exactly the `max_files` files that are
first in mtime-descending order (every survivor is at least as recent as
every removed file); and an individual deletion failure affects only its own
file: every non-failing file beyond the limit is still removed, and a
failing one survives. -/
theorem cleanup_old_files_spec (files : List FileEntry) (fails : FileEntry → Bool)
    (maxf : ℕ) (hnd : files.Nodup) :
    (cleanup_old_files files fails maxf).2 = files.length - maxf ∧
    (cleanup_old_files files (fun _ => false) maxf).1.Perm
      ((files.insertionSort (fun a b => b.1 ≤ a.1)).take maxf) ∧
    (∀ a ∈ (cleanup_old_files files (fun _ => false) maxf).1,
      ∀ b ∈ files, b ∉ (cleanup_old_files files (fun _ => false) maxf).1 → b.1 ≤ a.1) ∧
    (∀ f ∈ (files.insertionSort (fun a b => b.1 ≤ a.1)).drop maxf,
      (fails f = false → f ∉ (cleanup_old_files files fails maxf).1) ∧
      (fails f = true → f ∈ (cleanup_old_files files fails maxf).1)) := by
  have hperm : (files.insertionSort (fun a b => b.1 ≤ a.1)).Perm files :=
    List.perm_insertionSort _ _
  have hsorted : List.Sorted (fun a b : FileEntry => b.1 ≤ a.1)
      (files.insertionSort (fun a b => b.1 ≤ a.1)) := List.sorted_insertionSort _ _
  have hndsrt : (files.insertionSort (fun a b => b.1 ≤ a.1)).Nodup :=
    hperm.nodup_iff.2 hnd
  have hlen : (files.insertionSort (fun a b => b.1 ≤ a.1)).length = files.length :=
    hperm.length_eq
  by_cases hle : files.length ≤ maxf
  · have hdropnil : (files.insertionSort (fun a b => b.1 ≤ a.1)).drop maxf = [] :=
      List.drop_eq_nil_of_le (by omega)
    refine ⟨?_, ?_, ?_, ?_⟩
    · rw [cleanup_old_files_of_le hle]
      omega
    · rw [cleanup_old_files_of_le hle,
        List.take_of_length_le (by omega)]
      exact hperm.symm
    · intro a _ b hb hbn
      rw [cleanup_old_files_of_le hle] at hbn
      exact absurd hb hbn
    · intro f hf
      rw [hdropnil] at hf
      cases hf
  · have hgt : maxf < files.length := not_le.1 hle
    have hnofail : ((files.insertionSort (fun a b => b.1 ≤ a.1)).drop maxf).filter
        (fun _ => !false) = (files.insertionSort (fun a b => b.1 ≤ a.1)).drop maxf := by
      simp
    have hsurv : (cleanup_old_files files (fun _ => false) maxf).1.Perm
        ((files.insertionSort (fun a b => b.1 ≤ a.1)).take maxf) := by
      rw [cleanup_old_files_of_gt hgt]
      simp only [hnofail]
      have h1 : (files.filter (fun f => decide (f ∉
            (files.insertionSort (fun a b => b.1 ≤ a.1)).drop maxf))).Perm
          ((files.insertionSort (fun a b => b.1 ≤ a.1)).filter (fun f => decide (f ∉
            (files.insertionSort (fun a b => b.1 ≤ a.1)).drop maxf))) :=
        (hperm.filter _).symm
      refine h1.trans ?_
      have hdisj : ∀ x ∈ (files.insertionSort (fun a b => b.1 ≤ a.1)).take maxf,
          x ∉ (files.insertionSort (fun a b => b.1 ≤ a.1)).drop maxf := by
        intro x hx
        have hnd2 : ((files.insertionSort (fun a b => b.1 ≤ a.1)).take maxf ++
            (files.insertionSort (fun a b => b.1 ≤ a.1)).drop maxf).Nodup := by
          rw [List.take_append_drop]
          exact hndsrt
        exact (List.disjoint_of_nodup_append hnd2) hx
      have htake : ((files.insertionSort (fun a b => b.1 ≤ a.1)).take maxf).filter
          (fun f => decide (f ∉ (files.insertionSort (fun a b => b.1 ≤ a.1)).drop maxf))
          = (files.insertionSort (fun a b => b.1 ≤ a.1)).take maxf :=
        List.filter_eq_self.2 fun x hx => by simp [hdisj x hx]
      have hdrop : ((files.insertionSort (fun a b => b.1 ≤ a.1)).drop maxf).filter
          (fun f => decide (f ∉ (files.insertionSort (fun a b => b.1 ≤ a.1)).drop maxf))
          = [] :=
        List.filter_eq_nil_iff.2 fun x hx => by simp [hx]
      have key : (files.insertionSort (fun a b => b.1 ≤ a.1)).filter
          (fun f => decide (f ∉ (files.insertionSort (fun a b => b.1 ≤ a.1)).drop maxf))
          = (files.insertionSort (fun a b => b.1 ≤ a.1)).take maxf := by
        have hcongr : (files.insertionSort (fun a b => b.1 ≤ a.1)).filter
            (fun f => decide (f ∉ (files.insertionSort (fun a b => b.1 ≤ a.1)).drop maxf))
            = (((files.insertionSort (fun a b => b.1 ≤ a.1)).take maxf ++
                (files.insertionSort (fun a b => b.1 ≤ a.1)).drop maxf)).filter
              (fun f => decide (f ∉ (files.insertionSort (fun a b => b.1 ≤ a.1)).drop maxf)) := by
          rw [List.take_append_drop]
        rw [hcongr, List.filter_append, htake, hdrop, List.append_nil]
      rw [key]
    refine ⟨?_, hsurv, ?_, ?_⟩
    · rw [cleanup_old_files_of_gt hgt]
      simp only [List.length_drop]
      omega
    · intro a ha b hb hbn
      have hatake : a ∈ (files.insertionSort (fun a b => b.1 ≤ a.1)).take maxf :=
        hsurv.subset ha
      have hbs : b ∈ files.insertionSort (fun a b => b.1 ≤ a.1) := hperm.mem_iff.2 hb
      have hbdrop : b ∈ (files.insertionSort (fun a b => b.1 ≤ a.1)).drop maxf := by
        have hbsplit : b ∈ (files.insertionSort (fun a b => b.1 ≤ a.1)).take maxf ++
            (files.insertionSort (fun a b => b.1 ≤ a.1)).drop maxf := by
          rw [List.take_append_drop]
          exact hbs
        rcases List.mem_append.1 hbsplit with h | h
        · exact absurd (hsurv.mem_iff.2 h) hbn
        · exact h
      have hpw : List.Pairwise (fun a b : FileEntry => b.1 ≤ a.1)
          ((files.insertionSort (fun a b => b.1 ≤ a.1)).take maxf ++
            (files.insertionSort (fun a b => b.1 ≤ a.1)).drop maxf) := by
        rw [List.take_append_drop]
        exact hsorted
      exact (List.pairwise_append.1 hpw).2.2 a hatake b hbdrop
    · intro f hf
      have hffiles : f ∈ files :=
        hperm.mem_iff.1 (List.drop_subset _ _ hf)
      constructor
      · intro hfl
        rw [cleanup_old_files_of_gt hgt]
        intro hmem
        rcases List.mem_filter.1 hmem with ⟨-, hdec⟩
        exact (of_decide_eq_true hdec) (List.mem_filter.2 ⟨hf, by simp [hfl]⟩)
      · intro hfl
        rw [cleanup_old_files_of_gt hgt]
        refine List.mem_filter.2 ⟨hffiles, decide_eq_true ?_⟩
        intro hmem
        rcases List.mem_filter.1 hmem with ⟨-, hdec⟩
        simp [hfl] at hdec

/-- Twelve directory entries with distinct mtimes. -/
def files12 : List FileEntry := (List.range 12).map (fun k => (k, k))

/-- Witness for C8 at the spec's example: 12 files, `max_files = 10` —
exactly 2 are removed (count `= 12 - 10`) and the survivors are the 10
most recently modified. -/
theorem cleanup_old_files_spec_witness :
    files12.Nodup ∧
      (cleanup_old_files files12 (fun _ => false) 10).2 = files12.length - 10 ∧
      (cleanup_old_files files12 (fun _ => false) 10).2 = 2 ∧
      (cleanup_old_files files12 (fun _ => false) 10).1.Perm
        ((files12.insertionSort (fun a b => b.1 ≤ a.1)).take 10) :=
  ⟨by decide, (cleanup_old_files_spec files12 (fun _ => false) 10 (by decide)).1,
   by decide,
   (cleanup_old_files_spec files12 (fun _ => false) 10 (by decide)).2.1⟩

/-! ## Update scheduler (`src/scheduler.py` `update_radar_data`) -/

/-- The scheduler's observable concurrency state: the `_is_running` flag and
the list of in-flight refresh-cycle coroutines, each recorded as its number
of remaining suspension points (awaits). -/
structure SchedulerState where
  is_running : Bool
  active : List ℕ
deriving DecidableEq, Repr

/-- Events of the cooperative execution: a timer fire / manual trigger of
`update_radar_data` (atomic up to its first await: the guard test and the
flag-set at `src/scheduler.py:35-39` have no await point between them), and
the event loop resuming in-flight cycle `i` at a suspension point, where the
body either continues, returns early, finishes, or raises — with the
`finally` at `src/scheduler.py:111-112` clearing the flag whenever the cycle
ends. -/
inductive SchedEvent where
  | trigger (segments : ℕ)
  | resume (i : ℕ) (raises : Bool)

/-- One step of the scheduler model. -/
def sched_step (s : SchedulerState) (e : SchedEvent) : SchedulerState :=
  match e with
  | .trigger n =>
    if s.is_running then s
    else { is_running := true, active := s.active ++ [n] }
  | .resume i raises =>
    match s.active[i]? with
    | none => s
    | some rem =>
      if raises ∨ rem = 0 then { is_running := false, active := s.active.eraseIdx i }
      else { s with active := s.active.set i (rem - 1) }

/-- The scheduler starts Idle with no cycle in flight. -/
def sched_init : SchedulerState := ⟨false, []⟩

/-- Run a whole event trace. -/
def sched_run (events : List SchedEvent) : SchedulerState :=
  events.foldl sched_step sched_init

/-- The single-flight invariant. -/
def SchedInv (s : SchedulerState) : Prop :=
  s.active.length ≤ 1 ∧ (s.is_running = true ↔ s.active ≠ [])

lemma schedInv_step {s : SchedulerState} (h : SchedInv s) (e : SchedEvent) :
    SchedInv (sched_step s e) := by
  obtain ⟨hlen, hiff⟩ := h
  cases e with
  | trigger n =>
    by_cases hr : s.is_running
    · simpa [sched_step, hr] using ⟨hlen, hiff⟩
    · have hempty : s.active = [] := by
        by_contra hne
        exact hr (hiff.2 hne)
      simp [sched_step, hr, hempty, SchedInv]
  | resume i raises =>
    cases hget : s.active[i]? with
    | none => simpa [sched_step, hget] using ⟨hlen, hiff⟩
    | some rem =>
      have hi : i < s.active.length := by
        by_contra hge
        rw [List.getElem?_eq_none (not_lt.1 hge)] at hget
        cases hget
      have hone : s.active.length = 1 := by omega
      have hizero : i = 0 := by omega
      by_cases hend : raises ∨ rem = 0
      · have herase : s.active.eraseIdx i = [] := by
          apply List.eq_nil_of_length_eq_zero
          rw [List.length_eraseIdx_of_lt hi]
          omega
        simp [sched_step, hget, hend, SchedInv, herase]
      · have hset : (s.active.set i (rem - 1)).length = s.active.length :=
          List.length_set _ _ _
        refine ⟨by simpa [sched_step, hget, hend] using le_of_eq (hset.trans hone), ?_⟩
        have hne : s.active.set i (rem - 1) ≠ [] := by
          intro hnil
          have := congrArg List.length hnil
          rw [hset, hone] at this
          simp at this
        have hrun : s.is_running = true := hiff.2 (by
          intro hnil
          rw [hnil] at hi
          simp at hi)
        simp [sched_step, hget, hend, hrun, hne]

lemma schedInv_run (events : List SchedEvent) : SchedInv (sched_run events) := by
  suffices h : ∀ s, SchedInv s → SchedInv (events.foldl sched_step s) by
    exact h sched_init (by simp [SchedInv, sched_init])
  induction events with
  | nil => intro s hs; exact hs
  | cons e es ih => intro s hs; exact ih _ (schedInv_step hs e)

/-- C5: in every reachable scheduler state at most one refresh cycle is in
flight and the in-progress flag is set exactly while one is (so every cycle
— ending normally or by exception — returns the scheduler to Idle); and a
trigger that arrives while a cycle is in flight is dropped: it changes
nothing (not queued, no second concurrent cycle). -/
theorem scheduler_single_flight :
    (∀ events : List SchedEvent,
      (sched_run events).active.length ≤ 1 ∧
        ((sched_run events).is_running = true ↔ (sched_run events).active ≠ [])) ∧
    (∀ (s : SchedulerState) (n : ℕ), s.is_running = true →
      sched_step s (.trigger n) = s) := by
  constructor
  · intro events
    exact schedInv_run events
  · intro s n hr
    simp [sched_step, hr]

/-- Witness for C5: a concrete trace — trigger, a dropped second trigger
mid-cycle, then the cycle finishes — ends Idle with nothing in flight, and a
trigger in a running state is dropped. -/
theorem scheduler_single_flight_witness :
    ((sched_run [.trigger 2, .trigger 5, .resume 0 false, .resume 0 false,
        .resume 0 false]).active.length ≤ 1 ∧
      ((sched_run [.trigger 2, .trigger 5, .resume 0 false, .resume 0 false,
          .resume 0 false]).is_running = true ↔
        (sched_run [.trigger 2, .trigger 5, .resume 0 false, .resume 0 false,
          .resume 0 false]).active ≠ [])) ∧
      sched_step ⟨true, [3]⟩ (.trigger 7) = ⟨true, [3]⟩ :=
  ⟨scheduler_single_flight.1 [.trigger 2, .trigger 5, .resume 0 false, .resume 0 false,
      .resume 0 false],
   scheduler_single_flight.2 ⟨true, [3]⟩ 7 rfl⟩
